import Mathlib

/-!
# Incremental HTTP/1.1 request-line parser (`internal/request/request.go`)

A shallow embedding of the Go package `request` and theorems about it.

* Go `[]byte` and `string` values are byte sequences: `List Byte`, a byte being
  a natural number (the values that occur are below 256).
* A Go `error` is a value of the enumeration `Error`; `nil` is `none`.
* A Go pointer result (`*RequestLine`, `*Request`) is an `Option`; `nil` is `none`.
* The three library functions the package calls (`bytes.Index`,
  `strings.Split`, `strings.TrimSpace`) are embedded from their documented
  behaviour.
* `RequestFromReader` contains an unbounded `for` loop; it is embedded with a
  fuel argument counting loop iterations, `none` meaning that the loop is still
  running when the fuel is used up.
* A byte source is the sequence of the results of its `Read` calls.
* Run-time panics of the driver (nil dereference, slice expression out of
  range) are an outcome of their own.
-/

set_option linter.unusedVariables false

namespace HttpFromTcp

/-- A byte of a Go `[]byte` or `string`. -/
abbrev Byte := Nat

/-- A Go `string` or `[]byte`. -/
abbrev Bytes := List Byte

/-- The bytes of an ASCII string literal. -/
def ascii (s : String) : Bytes := s.data.map Char.toNat

/-! ## Errors -/

/-- The `error` values that occur: the four errors of the request-line parser,
the error of the driver loop, `io.EOF`, and any other error that a reader may
return, identified by a number. -/
inductive Error where
  /-- `errors.New("invalid request line")` -/
  | invalidRequestLine
  /-- `errors.New("invalid http method")` -/
  | invalidHttpMethod
  /-- `errors.New("invalid http version formats")` -/
  | invalidHttpVersionFormats
  /-- `fmt.Errorf("unsupported http version")` -/
  | unsupportedHttpVersion
  /-- `errors.New("unexpected EOF: incomplete request")` -/
  | unexpectedEOF
  /-- `io.EOF` -/
  | EOF
  /-- An error of the byte source other than `io.EOF`. -/
  | transport (code : Nat)
  deriving DecidableEq, Repr

/-! ## Data model -/

/-- The type `RequestState` with its two constants. -/
inductive RequestState where
  | stateInitialized
  | stateDone
  deriving DecidableEq, Repr

/-- The struct `RequestLine`; `HttpMethod` is a string type. -/
structure RequestLine where
  Method : Bytes
  HttpVersion : Bytes
  RequestTarget : Bytes
  deriving DecidableEq, Repr

/-- The struct `Request`. `Headers` is a map, `none` being the nil map. The zero
value of `RequestLine` has three empty strings, the zero value of `state` is
`stateInitialized`. -/
structure Request where
  RequestLine : RequestLine
  Headers : Option (List (Bytes × Bytes))
  Body : Bytes
  state : RequestState
  deriving DecidableEq, Repr

/-- The constant `crlf = "\r\n"`. -/
def crlf : Bytes := [13, 10]

/-- The constant `bufferSize`. -/
def bufferSize : Nat := 8

/-- The method constant `GET`. -/
def GET : Bytes := ascii "GET"
/-- The method constant `POST`. -/
def POST : Bytes := ascii "POST"
/-- The method constant `PUT`. -/
def PUT : Bytes := ascii "PUT"
/-- The method constant `PATCH`. -/
def PATCH : Bytes := ascii "PATCH"
/-- The method constant `DELETE`. -/
def DELETE : Bytes := ascii "DELETE"
/-- The method constant `OPTIONS`. -/
def OPTIONS : Bytes := ascii "OPTIONS"
/-- The method constant `TRACE`. -/
def TRACE : Bytes := ascii "TRACE"

/-! ## Library functions -/

/-- Library function `bytes.Index(s, sep)`: the index of the first instance of
`sep` in `s`; `none` stands for the result `-1` (no instance). -/
def bytesIndex : Bytes → Bytes → Option Nat
  | [], sep => if sep = [] then some 0 else none
  | b :: t, sep =>
    if sep.isPrefixOf (b :: t) then some 0
    else (bytesIndex t sep).map (· + 1)

/-- Library function `strings.Split(s, sep)` for a separator `sep` of one byte:
the substrings of `s` between the occurrences of `sep`, in order. A string
without `sep` gives the one-element slice holding `s`. -/
def stringsSplit : Bytes → Byte → List Bytes
  | [], _ => [[]]
  | b :: t, sep =>
    if b = sep then [] :: stringsSplit t sep
    else
      match stringsSplit t sep with
      | [] => [[b]]
      | p :: ps => (b :: p) :: ps

/-- The UTF-8 encodings of the code points for which `unicode.IsSpace` holds:
`\t \n \v \f \r`, space, U+0085, U+00A0, U+1680, U+2000 to U+200A, U+2028,
U+2029, U+202F, U+205F and U+3000. -/
def spaceEncodings : List Bytes :=
  [[9], [10], [11], [12], [13], [32],
   [0xC2, 0x85], [0xC2, 0xA0],
   [0xE1, 0x9A, 0x80],
   [0xE2, 0x80, 0x80], [0xE2, 0x80, 0x81], [0xE2, 0x80, 0x82], [0xE2, 0x80, 0x83],
   [0xE2, 0x80, 0x84], [0xE2, 0x80, 0x85], [0xE2, 0x80, 0x86], [0xE2, 0x80, 0x87],
   [0xE2, 0x80, 0x88], [0xE2, 0x80, 0x89], [0xE2, 0x80, 0x8A],
   [0xE2, 0x80, 0xA8], [0xE2, 0x80, 0xA9], [0xE2, 0x80, 0xAF],
   [0xE2, 0x81, 0x9F],
   [0xE3, 0x80, 0x80]]

/-- The width in bytes of the white-space code point encoded at the head of `s`,
or `0` when `s` does not start with one. -/
def leadingSpaceWidth (s : Bytes) : Nat :=
  match spaceEncodings.find? (fun e => e.isPrefixOf s) with
  | some e => e.length
  | none => 0

/-- Removal of the leading white space of `s`, at most `n` code points. -/
def trimLeftSpace : Nat → Bytes → Bytes
  | 0, s => s
  | n + 1, s =>
    match leadingSpaceWidth s with
    | 0 => s
    | w + 1 => trimLeftSpace n (s.drop (w + 1))

/-- The width in bytes of the white-space code point encoded at the end of `s`,
or `0` when `s` does not end with one. -/
def trailingSpaceWidth (s : Bytes) : Nat :=
  match spaceEncodings.find? (fun e => e.reverse.isPrefixOf s.reverse) with
  | some e => e.length
  | none => 0

/-- Removal of the trailing white space of `s`, at most `n` code points. -/
def trimRightSpace : Nat → Bytes → Bytes
  | 0, s => s
  | n + 1, s =>
    match trailingSpaceWidth s with
    | 0 => s
    | w + 1 => trimRightSpace n (s.take (s.length - (w + 1)))

/-- Library function `strings.TrimSpace(s)`: `s` with all leading and trailing
white space removed, as defined by Unicode. -/
def stringsTrimSpace (s : Bytes) : Bytes :=
  let t := trimLeftSpace s.length s
  trimRightSpace t.length t

/-! ## The parser -/

/-- Go function `isValidHttpMethod`. -/
def isValidHttpMethod (v : Bytes) : Bool :=
  if v = GET ∨ v = POST ∨ v = PUT ∨ v = PATCH ∨ v = DELETE ∨ v = OPTIONS ∨ v = TRACE then
    true
  else
    false

/-- Go function `parseHttpVerion`: the returned string and error. -/
def parseHttpVerion (v : Bytes) : Bytes × Option Error :=
  let parts := stringsSplit v 47
  if parts.length ≠ 2 then
    ([], some Error.invalidHttpVersionFormats)
  else if stringsTrimSpace (parts.getD 1 []) ≠ ascii "1.1" then
    ([], some Error.unsupportedHttpVersion)
  else
    (parts.getD 1 [], none)

/-- Go function `parseRequestLine`: the request line (or nil), the number of
bytes consumed and the error. -/
def parseRequestLine (rawReq : Bytes) : Option RequestLine × Nat × Option Error :=
  match bytesIndex rawReq crlf with
  | none => (none, 0, none)
  | some idx =>
    let line := rawReq.take idx
    let rlParts := stringsSplit line 32
    if rlParts.length ≠ 3 then
      (none, 0, some Error.invalidRequestLine)
    else
      let method := rlParts.getD 0 []
      let target := rlParts.getD 1 []
      let versionStr := rlParts.getD 2 []
      if !isValidHttpMethod method then
        (none, 0, some Error.invalidHttpMethod)
      else
        match parseHttpVerion versionStr with
        | (_, some err) => (none, 0, some err)
        | (version, none) =>
          (some { Method := method, HttpVersion := version, RequestTarget := target },
            idx + 2, none)

/-- Go method `(r *Request) parse`: the request after the call, the number of
bytes consumed and the error; `none` when the call panics (the dereference `*rl`
of a nil pointer). -/
def parse (r : Request) (data : Bytes) : Option (Request × Nat × Option Error) :=
  let totalBytesConsumeds := 0
  match r.state with
  | .stateInitialized =>
    match parseRequestLine data with
    | (_, _, some err) => some (r, 0, some err)
    | (rl, bytesConsumed, none) =>
      if bytesConsumed = 0 then
        some (r, 0, none)
      else
        match rl with
        | none => none
        | some rl =>
          some ({ r with RequestLine := rl, state := .stateDone }, bytesConsumed, none)
  | .stateDone => some (r, totalBytesConsumeds, none)

/-! ## The driver loop -/

/-- The result of one call `reader.Read(buff)`: `data` holds the bytes `buff[:n]`
that the call stored, so that `n = data.length`, and `err` is the error returned
with them. The contract of `io.Reader` asks `n ≤ len(buff)`. -/
structure ReadResult where
  data : Bytes
  err : Option Error
  deriving DecidableEq, Repr

/-- A byte source (`io.Reader`): the result of each call of `Read`, the calls
being counted from `0`. -/
abbrev Reader := Nat → ReadResult

/-- How a call of `RequestFromReader` ends: it returns a request (or nil) and an
error (or nil), or it panics. -/
inductive Outcome where
  | returned (r : Option Request) (err : Option Error)
  | panicked
  deriving DecidableEq, Repr

/-- The `for` loop of `RequestFromReader`, run for at most `fuel` iterations:
`k` is the number of calls of `Read` made so far, `r` and `fullReqData` are the
variables of the function. The result is `none` when the loop is still running
after `fuel` iterations. The slice expressions `buff[:n]` and
`fullReqData[bytesConsumed:]` panic when out of range. -/
def RequestFromReaderLoop : Nat → Reader → Nat → Request → Bytes → Option Outcome
  | 0, _, _, _, _ => none
  | fuel + 1, reader, k, r, fullReqData =>
    -- n, err := reader.Read(buff)
    let n := (reader k).data.length
    let err := (reader k).err
    if n > bufferSize then
      some Outcome.panicked
    else
      let fullReqData := if n > 0 then fullReqData ++ (reader k).data else fullReqData
      -- bytesConsumed, err := r.parse(fullReqData): the variable `err` is declared
      -- above in the same block, so this statement assigns to it
      match parse r fullReqData with
      | none => some Outcome.panicked
      | some (r, bytesConsumed, err) =>
        if err ≠ none then
          some (Outcome.returned none err)
        else if bytesConsumed > fullReqData.length then
          some Outcome.panicked
        else
          let fullReqData :=
            if bytesConsumed > 0 then fullReqData.drop bytesConsumed else fullReqData
          if r.state = RequestState.stateDone then
            some (Outcome.returned (some r) none)
          else if err = some Error.EOF then
            if fullReqData.length > 0 then
              some (Outcome.returned none (some Error.unexpectedEOF))
            else
              -- break, then the statement after the loop
              some (Outcome.returned (some r) none)
          else if err ≠ none then
            some (Outcome.returned none err)
          else
            RequestFromReaderLoop fuel reader (k + 1) r fullReqData

/-- Go function `RequestFromReader`, its loop run for at most `fuel` iterations. -/
def RequestFromReader (fuel : Nat) (reader : Reader) : Option Outcome :=
  let r : Request :=
    { RequestLine := { Method := [], HttpVersion := [], RequestTarget := [] },
      Headers := none, Body := [], state := RequestState.stateInitialized }
  RequestFromReaderLoop fuel reader 0 r []

/-! ## Notions used in the statements -/

/-- The seven methods of the closed set. -/
def validMethods : List Bytes := [GET, POST, PUT, PATCH, DELETE, OPTIONS, TRACE]

/-- `i` is the offset of the first occurrence of `sep` in `s`. -/
def IsFirstIndex (s sep : Bytes) (i : Nat) : Prop :=
  sep <+: s.drop i ∧ ∀ j, j < i → ¬ sep <+: s.drop j

/-- The part of `v` after its first occurrence of the byte `c`. -/
def afterByte (c : Byte) (v : Bytes) : Bytes :=
  (v.dropWhile (fun b => b ≠ c)).drop 1

/-- The bytes returned by the first `k` calls of `Read`, in order. -/
def delivered (reader : Reader) : Nat → Bytes
  | 0 => []
  | k + 1 => delivered reader k ++ (reader k).data

/-- The reader that returns the given results, one per call, and after them
zero bytes and `io.EOF` at every call. -/
def readerOf (reads : List ReadResult) : Reader :=
  fun k => reads.getD k { data := [], err := some Error.EOF }

/-- A byte source that ends before its CRLF: `GET /index.html HTTP/1.1` in three reads
of eight bytes, then zero bytes and `io.EOF` at every read. -/
def incompleteReader : Reader :=
  readerOf [⟨ascii "GET /ind", none⟩, ⟨ascii "ex.html ", none⟩, ⟨ascii "HTTP/1.1", none⟩]

/-- A byte source with a failing read: the first read fails with a transport
error, the next two deliver `GET / HTTP/1.1\r\n`. -/
def failingReader : Reader :=
  readerOf [⟨[], some (Error.transport 1)⟩, ⟨ascii "GET / HT", none⟩,
    ⟨ascii "TP/1.1\r\n", none⟩]

/-- The line `line` (the bytes before a CRLF) is a well-formed request line:
three fields separated by single spaces, the first a valid method, the third
with exactly one `/` followed, up to surrounding white space, by `1.1`. -/
def WellFormedLine (line : Bytes) : Prop :=
  (stringsSplit line 32).length = 3 ∧
  (stringsSplit line 32).getD 0 [] ∈ validMethods ∧
  ((stringsSplit line 32).getD 2 []).count 47 = 1 ∧
  stringsTrimSpace (afterByte 47 ((stringsSplit line 32).getD 2 [])) = ascii "1.1"

instance (line : Bytes) : Decidable (WellFormedLine line) := by
  unfold WellFormedLine
  infer_instance

/-- Successive calls of `parse`, one for each element of the list, each on the
request left by the call before; `none` when a call panics. -/
def parseEach (r : Request) : List Bytes → Option Request
  | [] => some r
  | d :: ds =>
    match parse r d with
    | none => none
    | some (r1, _, _) => parseEach r1 ds

/-- One call of `parse` in the loop of `RequestFromReader`: the accumulator
`fullReqData` passed to it, what it returned (`none` for a panic), and the
accumulator after the statements of that iteration. -/
structure ParseCall where
  data : Bytes
  result : Option (Request × Nat × Option Error)
  after : Bytes
  deriving DecidableEq, Repr

/-- The loop of `RequestFromReader` as in `RequestFromReaderLoop`, together with
the list of its calls of `parse`, in order. -/
def RequestFromReaderTraced :
    Nat → Reader → Nat → Request → Bytes → List ParseCall × Option Outcome
  | 0, _, _, _, _ => ([], none)
  | fuel + 1, reader, k, r, fullReqData =>
    let n := (reader k).data.length
    let err := (reader k).err
    if n > bufferSize then
      ([], some Outcome.panicked)
    else
      let fullReqData := if n > 0 then fullReqData ++ (reader k).data else fullReqData
      match parse r fullReqData with
      | none => ([⟨fullReqData, none, fullReqData⟩], some Outcome.panicked)
      | some (r1, bytesConsumed, err) =>
        if err ≠ none then
          ([⟨fullReqData, some (r1, bytesConsumed, err), fullReqData⟩],
            some (Outcome.returned none err))
        else if bytesConsumed > fullReqData.length then
          ([⟨fullReqData, some (r1, bytesConsumed, err), fullReqData⟩], some Outcome.panicked)
        else
          let rest :=
            if bytesConsumed > 0 then fullReqData.drop bytesConsumed else fullReqData
          let call : ParseCall := ⟨fullReqData, some (r1, bytesConsumed, err), rest⟩
          if r1.state = RequestState.stateDone then
            ([call], some (Outcome.returned (some r1) none))
          else if err = some Error.EOF then
            if rest.length > 0 then
              ([call], some (Outcome.returned none (some Error.unexpectedEOF)))
            else
              ([call], some (Outcome.returned (some r1) none))
          else if err ≠ none then
            ([call], some (Outcome.returned none err))
          else
            (call :: (RequestFromReaderTraced fuel reader (k + 1) r1 rest).1,
              (RequestFromReaderTraced fuel reader (k + 1) r1 rest).2)

/-- The request that `RequestFromReader` creates before its loop. -/
def emptyRequest : Request :=
  { RequestLine := { Method := [], HttpVersion := [], RequestTarget := [] },
    Headers := none, Body := [], state := RequestState.stateInitialized }

/-! ## Lemmas on the library functions -/

theorem bytesIndex_eq_none_iff (s sep : Bytes) : bytesIndex s sep = none ↔ ¬ sep <:+: s := by
  induction s with
  | nil =>
    by_cases h : sep = [] <;> simp [bytesIndex, h]
  | cons b t ih =>
    by_cases hp : sep <+: b :: t
    · simp [bytesIndex, List.isPrefixOf_iff_prefix, hp, List.infix_cons_iff]
    · simp [bytesIndex, List.isPrefixOf_iff_prefix, hp, List.infix_cons_iff, ih]

theorem bytesIndex_eq_some_iff (s sep : Bytes) (i : Nat) :
    bytesIndex s sep = some i ↔ IsFirstIndex s sep i := by
  induction s generalizing i with
  | nil =>
    unfold IsFirstIndex
    by_cases h : sep = []
    · subst h
      cases i with
      | zero => simp [bytesIndex]
      | succ i => simp [bytesIndex]; exact ⟨0, Nat.succ_pos _⟩
    · simp [bytesIndex, h]
  | cons b t ih =>
    unfold IsFirstIndex
    by_cases hp : sep <+: b :: t
    · cases i with
      | zero => simp [bytesIndex, List.isPrefixOf_iff_prefix, hp]
      | succ i =>
        simp only [bytesIndex, List.isPrefixOf_iff_prefix, hp, if_true]
        constructor
        · intro h; cases h
        · intro h; exact absurd hp (h.2 0 (Nat.succ_pos _))
    · cases i with
      | zero => simp [bytesIndex, List.isPrefixOf_iff_prefix, hp]
      | succ i =>
        simp only [bytesIndex, List.isPrefixOf_iff_prefix, hp, if_false, Option.map_eq_some',
          Nat.add_right_cancel_iff, exists_eq_right, List.drop_succ_cons, ih i]
        unfold IsFirstIndex
        constructor
        · rintro ⟨h1, h2⟩
          refine ⟨h1, fun j hj => ?_⟩
          cases j with
          | zero => simpa using hp
          | succ j => simpa using h2 j (by omega)
        · rintro ⟨h1, h2⟩
          refine ⟨h1, fun j hj => ?_⟩
          simpa using h2 (j + 1) (by omega)

theorem IsFirstIndex.add_length_le {s sep : Bytes} {i : Nat} (h : IsFirstIndex s sep i) :
    i + sep.length ≤ s.length := by
  have := h.1.length_le
  simp at this
  by_cases hi : i ≤ s.length
  · omega
  · have h0 : sep = [] := by
      have hd : s.drop i = [] := List.drop_eq_nil_of_le (by omega)
      have h1 := h.1
      rw [hd] at h1
      simpa using h1
    have := h.2 s.length (by omega)
    simp [h0] at this

theorem prefix_drop_append {s sep : Bytes} (e : Bytes) {j : Nat} (h : j + sep.length ≤ s.length) :
    sep <+: (s ++ e).drop j ↔ sep <+: s.drop j := by
  rw [List.prefix_iff_eq_take, List.prefix_iff_eq_take, List.drop_append_of_le_length (by omega),
    List.take_append_of_le_length (by simp; omega)]

theorem IsFirstIndex.append {s sep : Bytes} {i : Nat} (h : IsFirstIndex s sep i) (e : Bytes) :
    IsFirstIndex (s ++ e) sep i := by
  have hl := h.add_length_le
  refine ⟨(prefix_drop_append e hl).2 h.1, fun j hj => ?_⟩
  rw [prefix_drop_append e (by omega)]
  exact h.2 j hj

theorem bytesIndex_append {s sep : Bytes} {i : Nat} (h : bytesIndex s sep = some i) (e : Bytes) :
    bytesIndex (s ++ e) sep = some i :=
  (bytesIndex_eq_some_iff _ _ _).2 (((bytesIndex_eq_some_iff _ _ _).1 h).append e)

theorem bytesIndex_isSome_of_infix {s sep : Bytes} (h : sep <:+: s) :
    ∃ i, bytesIndex s sep = some i := by
  cases hb : bytesIndex s sep with
  | none => exact absurd h ((bytesIndex_eq_none_iff _ _).1 hb)
  | some i => exact ⟨i, rfl⟩

theorem stringsSplit_ne_nil (s : Bytes) (sep : Byte) : stringsSplit s sep ≠ [] := by
  induction s with
  | nil => simp [stringsSplit]
  | cons b t ih =>
    by_cases h : b = sep
    · simp [stringsSplit, h]
    · cases hs : stringsSplit t sep <;> simp [stringsSplit, h, hs]

theorem stringsSplit_length (s : Bytes) (sep : Byte) :
    (stringsSplit s sep).length = s.count sep + 1 := by
  induction s with
  | nil => simp [stringsSplit]
  | cons b t ih =>
    by_cases h : b = sep
    · simp [stringsSplit, h, ih]
    · cases hs : stringsSplit t sep with
      | nil => exact absurd hs (stringsSplit_ne_nil t sep)
      | cons p ps =>
        rw [hs] at ih
        simp [stringsSplit, h, hs, List.count_cons]
        simpa using ih

theorem stringsSplit_of_not_mem {s : Bytes} {sep : Byte} (h : sep ∉ s) :
    stringsSplit s sep = [s] := by
  induction s with
  | nil => simp [stringsSplit]
  | cons b t ih =>
    simp only [List.mem_cons, not_or] at h
    have hb : b ≠ sep := fun e => h.1 e.symm
    simp [stringsSplit, hb, ih h.2]

theorem stringsSplit_append_cons {a : Bytes} {sep : Byte} (h : sep ∉ a) (b : Bytes) :
    stringsSplit (a ++ sep :: b) sep = a :: stringsSplit b sep := by
  induction a with
  | nil => simp [stringsSplit]
  | cons x t ih =>
    simp only [List.mem_cons, not_or] at h
    have hx : x ≠ sep := fun e => h.1 e.symm
    simp [stringsSplit, hx, ih h.2]

theorem stringsSplit_of_count_one {v : Bytes} {c : Byte} (h : v.count c = 1) :
    ∃ a, stringsSplit v c = [a, afterByte c v] := by
  induction v with
  | nil => simp at h
  | cons b t ih =>
    by_cases hb : b = c
    · subst hb
      have ht : b ∉ t := by
        rw [← List.count_eq_zero]
        simpa using h
      exact ⟨[], by simp [stringsSplit, stringsSplit_of_not_mem ht, afterByte]⟩
    · have ht : t.count c = 1 := by
        simpa [List.count_cons, hb] using h
      obtain ⟨a, ha⟩ := ih ht
      exact ⟨b :: a, by simp [stringsSplit, hb, ha, afterByte]⟩

theorem isValidHttpMethod_iff (v : Bytes) : isValidHttpMethod v = true ↔ v ∈ validMethods := by
  simp [isValidHttpMethod, validMethods]

theorem parseHttpVerion_of_count_ne_one {v : Bytes} (h : v.count 47 ≠ 1) :
    parseHttpVerion v = ([], some Error.invalidHttpVersionFormats) := by
  simp [parseHttpVerion, stringsSplit_length, h]

theorem parseHttpVerion_of_count_one {v : Bytes} (h : v.count 47 = 1) :
    parseHttpVerion v =
      if stringsTrimSpace (afterByte 47 v) ≠ ascii "1.1" then
        ([], some Error.unsupportedHttpVersion)
      else (afterByte 47 v, none) := by
  obtain ⟨a, ha⟩ := stringsSplit_of_count_one h
  simp [parseHttpVerion, ha]

/-- The result of `parseRequestLine` on an input whose first CRLF is at offset `i`
and whose line has the three fields `method`, `target`, `versionStr`. -/
theorem parseRequestLine_of_fields {rawReq : Bytes} {i : Nat} {method target versionStr : Bytes}
    (hi : IsFirstIndex rawReq crlf i)
    (hs : stringsSplit (rawReq.take i) 32 = [method, target, versionStr]) :
    parseRequestLine rawReq =
      if method ∉ validMethods then (none, 0, some Error.invalidHttpMethod)
      else if versionStr.count 47 ≠ 1 then (none, 0, some Error.invalidHttpVersionFormats)
      else if stringsTrimSpace (afterByte 47 versionStr) ≠ ascii "1.1" then
        (none, 0, some Error.unsupportedHttpVersion)
      else
        (some { Method := method, HttpVersion := afterByte 47 versionStr,
                RequestTarget := target }, i + 2, none) := by
  have hidx := (bytesIndex_eq_some_iff _ _ _).2 hi
  by_cases hm : method ∈ validMethods
  · have hv := (isValidHttpMethod_iff method).2 hm
    by_cases hc : versionStr.count 47 = 1
    · by_cases ht : stringsTrimSpace (afterByte 47 versionStr) = ascii "1.1"
      · simp [parseRequestLine, hidx, hs, hm, hv, hc, ht, parseHttpVerion_of_count_one]
      · simp [parseRequestLine, hidx, hs, hm, hv, hc, ht, parseHttpVerion_of_count_one]
    · simp [parseRequestLine, hidx, hs, hm, hv, hc, parseHttpVerion_of_count_ne_one]
  · have hv : isValidHttpMethod method = false := by
      rw [← Bool.not_eq_true, isValidHttpMethod_iff]; exact hm
    simp [parseRequestLine, hidx, hs, hm, hv]

theorem parseRequestLine_of_length_ne {rawReq : Bytes} {i : Nat}
    (hi : IsFirstIndex rawReq crlf i)
    (hs : (stringsSplit (rawReq.take i) 32).length ≠ 3) :
    parseRequestLine rawReq = (none, 0, some Error.invalidRequestLine) := by
  have hidx := (bytesIndex_eq_some_iff _ _ _).2 hi
  simp [parseRequestLine, hidx, hs]

theorem parseRequestLine_of_no_crlf {rawReq : Bytes} (h : ¬ crlf <:+: rawReq) :
    parseRequestLine rawReq = (none, 0, none) := by
  simp [parseRequestLine, (bytesIndex_eq_none_iff _ _).2 h]

theorem list_length_three {α : Type} {l : List α} (h : l.length = 3) :
    ∃ a b c, l = [a, b, c] := by
  match l, h with
  | [a, b, c], _ => exact ⟨a, b, c, rfl⟩

/-- Bytes after the first CRLF do not influence `parseRequestLine`. -/
theorem parseRequestLine_append {d : Bytes} (h : crlf <:+: d) (e : Bytes) :
    parseRequestLine (d ++ e) = parseRequestLine d := by
  obtain ⟨i, hi⟩ := bytesIndex_isSome_of_infix h
  have hi2 := bytesIndex_append hi e
  have hl := ((bytesIndex_eq_some_iff _ _ _).1 hi).add_length_le
  have ht : (d ++ e).take i = d.take i := List.take_append_of_le_length (by omega)
  simp only [parseRequestLine, hi, hi2, ht]

/-- What a successful `parseRequestLine` implies about its input and result. -/
theorem parseRequestLine_success_inv {rawReq : Bytes} {rl : RequestLine}
    (h : (parseRequestLine rawReq).1 = some rl) :
    ∃ i target versionStr, IsFirstIndex rawReq crlf i ∧
      stringsSplit (rawReq.take i) 32 = [rl.Method, target, versionStr] ∧
      rl.Method ∈ validMethods ∧ versionStr.count 47 = 1 ∧
      stringsTrimSpace (afterByte 47 versionStr) = ascii "1.1" ∧
      rl = { Method := rl.Method, HttpVersion := afterByte 47 versionStr,
             RequestTarget := target } ∧
      parseRequestLine rawReq = (some rl, i + 2, none) := by
  cases hb : bytesIndex rawReq crlf with
  | none => simp [parseRequestLine, hb] at h
  | some i =>
    have hi := (bytesIndex_eq_some_iff _ _ _).1 hb
    by_cases hl : (stringsSplit (rawReq.take i) 32).length = 3
    · obtain ⟨f1, f2, f3, hs⟩ := list_length_three hl
      have hp := parseRequestLine_of_fields hi hs
      by_cases h1 : f1 ∈ validMethods
      · by_cases h2 : f3.count 47 = 1
        · by_cases h3 : stringsTrimSpace (afterByte 47 f3) = ascii "1.1"
          · simp only [h1, h2, h3, not_true_eq_false, ne_eq, if_false] at hp
            rw [hp] at h
            simp only [Option.some.injEq] at h
            subst h
            exact ⟨i, f2, f3, hi, hs, h1, h2, h3, rfl, hp⟩
          · simp [h1, h2, h3] at hp
            simp [hp] at h
        · simp [h1, h2] at hp
          simp [hp] at h
      · simp [h1] at hp
        simp [hp] at h
    · rw [parseRequestLine_of_length_ne hi hl] at h
      simp at h

theorem IsFirstIndex.unique {s sep : Bytes} {i j : Nat} (hi : IsFirstIndex s sep i)
    (hj : IsFirstIndex s sep j) : i = j := by
  rcases Nat.lt_trichotomy i j with h | h | h
  · exact absurd hi.1 (hj.2 i h)
  · exact h
  · exact absurd hj.1 (hi.2 j h)

theorem bytesIndex_crlf_append_cons {a : Bytes} (h : ¬ crlf <:+: a) {c : Byte} (hc : c ≠ 10)
    (u : Bytes) :
    bytesIndex (a ++ c :: u) crlf = (bytesIndex (c :: u) crlf).map (· + a.length) := by
  induction a with
  | nil => simp
  | cons x t ih =>
    rw [List.infix_cons_iff, not_or] at h
    have hp : ¬ crlf <+: x :: (t ++ c :: u) := by
      intro hp
      cases t with
      | nil =>
        simp [crlf] at hp
        exact hc hp.2.symm
      | cons y t =>
        apply h.1
        simp [crlf] at hp ⊢
        exact ⟨hp.1, hp.2⟩
    have e : bytesIndex (x :: (t ++ c :: u)) crlf =
        (bytesIndex (t ++ c :: u) crlf).map (· + 1) := by
      rw [bytesIndex]
      simp [List.isPrefixOf_iff_prefix, hp]
    rw [List.cons_append, e, ih h.2, Option.map_map]
    congr 1

theorem validMethods_no_space {m : Bytes} (hm : m ∈ validMethods) :
    32 ∉ m ∧ ¬ crlf <:+: m := by
  simp only [validMethods, List.mem_cons, List.mem_singleton, List.not_mem_nil, or_false] at hm
  rcases hm with h | h | h | h | h | h | h <;> subst h <;> decide

/-- Claim C2: for each of the seven methods `m`, each target `t` without space and
without CRLF, and each `rest`, `parseRequestLine` applied to
`m ++ " " ++ t ++ " HTTP/1.1\r\n" ++ rest` succeeds with the request line
`{Method = m, RequestTarget = t, HttpVersion = "1.1"}` (consuming the line and
its CRLF). -/
theorem parseRequestLine_valid_line (m t rest : Bytes) (hm : m ∈ validMethods)
    (hsp : 32 ∉ t) (hcr : ¬ crlf <:+: t) :
    parseRequestLine (m ++ ascii " " ++ t ++ ascii " HTTP/1.1\r\n" ++ rest) =
      (some { Method := m, HttpVersion := ascii "1.1", RequestTarget := t },
        m.length + t.length + 12, none) := by
  have hraw : m ++ ascii " " ++ t ++ ascii " HTTP/1.1\r\n" ++ rest =
      (m ++ 32 :: (t ++ 32 :: ascii "HTTP/1.1")) ++ (crlf ++ rest) := by
    simp [ascii, crlf]
  obtain ⟨hm32, hmcr⟩ := validMethods_no_space hm
  have hidx : bytesIndex (m ++ ascii " " ++ t ++ ascii " HTTP/1.1\r\n" ++ rest) crlf =
      some (m.length + t.length + 10) := by
    have e1 : m ++ ascii " " ++ t ++ ascii " HTTP/1.1\r\n" ++ rest =
        m ++ 32 :: ((t ++ 32 :: (ascii "HTTP/1.1" ++ crlf ++ rest))) := by
      simp [ascii, crlf]
    have e2 : (32 : Byte) :: (t ++ 32 :: (ascii "HTTP/1.1" ++ crlf ++ rest)) =
        (32 :: t) ++ 32 :: (ascii "HTTP/1.1" ++ crlf ++ rest) := rfl
    have h32t : ¬ crlf <:+: (32 : Byte) :: t := by
      rw [List.infix_cons_iff, not_or]
      exact ⟨by simp [crlf], hcr⟩
    have e3 : bytesIndex ((32 : Byte) :: (ascii "HTTP/1.1" ++ crlf ++ rest)) crlf = some 9 := by
      simp [bytesIndex, ascii, crlf]
    rw [e1, bytesIndex_crlf_append_cons hmcr (by decide), e2,
      bytesIndex_crlf_append_cons h32t (by decide), e3]
    simp
    omega
  have hi := (bytesIndex_eq_some_iff _ _ _).1 hidx
  have htake : (m ++ ascii " " ++ t ++ ascii " HTTP/1.1\r\n" ++ rest).take
      (m.length + t.length + 10) = m ++ 32 :: (t ++ 32 :: ascii "HTTP/1.1") := by
    rw [hraw]
    apply List.take_left'
    simp [ascii]
    omega
  have hs : stringsSplit ((m ++ ascii " " ++ t ++ ascii " HTTP/1.1\r\n" ++ rest).take
      (m.length + t.length + 10)) 32 = [m, t, ascii "HTTP/1.1"] := by
    rw [htake, stringsSplit_append_cons hm32, stringsSplit_append_cons hsp,
      stringsSplit_of_not_mem (by decide)]
  rw [parseRequestLine_of_fields hi hs]
  have h1 : (ascii "HTTP/1.1").count 47 = 1 := by decide
  have h2 : afterByte 47 (ascii "HTTP/1.1") = ascii "1.1" := by decide
  have h3 : stringsTrimSpace (ascii "1.1") = ascii "1.1" := by decide
  simp [hm, h1, h2, h3]

/-- Witness of `parseRequestLine_valid_line`: the request line
`GET /index.html HTTP/1.1` followed by a header line. -/
theorem parseRequestLine_valid_line_witness :
    parseRequestLine (GET ++ ascii " " ++ ascii "/index.html" ++ ascii " HTTP/1.1\r\n" ++
        ascii "Host: a\r\n") =
      (some { Method := GET, HttpVersion := ascii "1.1", RequestTarget := ascii "/index.html" },
        GET.length + (ascii "/index.html").length + 12, none) :=
  parseRequestLine_valid_line GET (ascii "/index.html") (ascii "Host: a\r\n")
    (by decide) (by decide) (by decide)

/-- Claim C3, as the code has it: on an input whose first CRLF is at offset `i` and
whose line splits on single spaces into exactly three fields with a valid method,
`parseRequestLine` fails with "invalid http version formats" when the third field
does not contain exactly one `/`, fails with "unsupported http version" when it
does and the part after the `/`, white space trimmed, differs from `1.1`, and
succeeds in every other case, whatever stands before the `/`. -/
theorem parseRequestLine_version_check (rawReq : Bytes) (i : Nat)
    (method target versionStr : Bytes) (hi : IsFirstIndex rawReq crlf i)
    (hs : stringsSplit (rawReq.take i) 32 = [method, target, versionStr])
    (hm : method ∈ validMethods) :
    (versionStr.count 47 ≠ 1 →
      parseRequestLine rawReq = (none, 0, some Error.invalidHttpVersionFormats)) ∧
    (versionStr.count 47 = 1 → stringsTrimSpace (afterByte 47 versionStr) ≠ ascii "1.1" →
      parseRequestLine rawReq = (none, 0, some Error.unsupportedHttpVersion)) ∧
    (versionStr.count 47 = 1 → stringsTrimSpace (afterByte 47 versionStr) = ascii "1.1" →
      parseRequestLine rawReq =
        (some { Method := method, HttpVersion := afterByte 47 versionStr,
                RequestTarget := target }, i + 2, none)) := by
  have hp := parseRequestLine_of_fields hi hs
  refine ⟨fun h1 => ?_, fun h1 h2 => ?_, fun h1 h2 => ?_⟩
  · rw [hp]; simp [hm, h1]
  · rw [hp]; simp [hm, h1, h2]
  · rw [hp]; simp [hm, h1, h2]

/-- Witness of `parseRequestLine_version_check`: the line `GET /x HTTP/2.0` is
rejected with "unsupported http version". -/
theorem parseRequestLine_version_check_witness :
    parseRequestLine (ascii "GET /x HTTP/2.0\r\n") =
      (none, 0, some Error.unsupportedHttpVersion) :=
  (parseRequestLine_version_check (ascii "GET /x HTTP/2.0\r\n") 15 GET (ascii "/x")
    (ascii "HTTP/2.0") (by unfold IsFirstIndex; decide) (by decide) (by decide)).2.1
    (by decide) (by decide)

/-- Claim C3 as stated fails: the line `GET / FOO/1.1` has three fields and a valid
method, its third field is not `HTTP/1.1`, and `parseRequestLine` succeeds on it. -/
theorem parseRequestLine_version_name_unchecked :
    IsFirstIndex (ascii "GET / FOO/1.1\r\n") crlf 13 ∧
    stringsSplit ((ascii "GET / FOO/1.1\r\n").take 13) 32 = [GET, ascii "/", ascii "FOO/1.1"] ∧
    GET ∈ validMethods ∧ ascii "FOO/1.1" ≠ ascii "HTTP/1.1" ∧
    parseRequestLine (ascii "GET / FOO/1.1\r\n") =
      (some { Method := GET, HttpVersion := ascii "1.1", RequestTarget := ascii "/" },
        15, none) := by
  refine ⟨?_, ?_, ?_, ?_, ?_⟩
  · unfold IsFirstIndex; decide
  · decide
  · decide
  · decide
  · decide

/-- Claim C6, the code at the failing input: on `GET / HTTP/1.1\t\r\n` the parser
succeeds and records the version `1.1\t`, with the trailing tab, not `1.1`. -/
theorem parseRequestLine_version_untrimmed :
    parseRequestLine (ascii "GET / HTTP/1.1\t\r\n") =
      (some { Method := GET, HttpVersion := ascii "1.1\t", RequestTarget := ascii "/" },
        17, none) ∧
    ascii "1.1\t" ≠ ascii "1.1" ∧ stringsTrimSpace (ascii "1.1\t") = ascii "1.1" := by
  refine ⟨?_, ?_, ?_⟩ <;> decide

/-- Claim C7: on an input whose line (the bytes before the first CRLF) splits on the
space character into exactly three fields, `parseRequestLine` fails with "invalid
http method" if and only if the first field is not, byte for byte, one of the
seven methods; and no successful result carries a method outside that set. -/
theorem parseRequestLine_invalid_method_iff (rawReq : Bytes) :
    (∀ i f1 f2 f3, IsFirstIndex rawReq crlf i →
      stringsSplit (rawReq.take i) 32 = [f1, f2, f3] →
      ((parseRequestLine rawReq).2.2 = some Error.invalidHttpMethod ↔ f1 ∉ validMethods)) ∧
    (∀ rl, (parseRequestLine rawReq).1 = some rl → rl.Method ∈ validMethods) := by
  constructor
  · intro i f1 f2 f3 hi hs
    rw [parseRequestLine_of_fields hi hs]
    by_cases h1 : f1 ∈ validMethods
    · by_cases h2 : f3.count 47 = 1
      · by_cases h3 : stringsTrimSpace (afterByte 47 f3) = ascii "1.1"
        · simp [h1, h2, h3]
        · simp [h1, h2, h3]
      · simp [h1, h2]
    · simp [h1]
  · intro rl h
    obtain ⟨i, target, versionStr, -, -, hm, -⟩ := parseRequestLine_success_inv h
    exact hm

/-- Witness of `parseRequestLine_invalid_method_iff`: `GETT /x HTTP/1.1` fails with
"invalid http method". -/
theorem parseRequestLine_invalid_method_iff_witness :
    (parseRequestLine (ascii "GETT /x HTTP/1.1\r\n")).2.2 = some Error.invalidHttpMethod :=
  ((parseRequestLine_invalid_method_iff (ascii "GETT /x HTTP/1.1\r\n")).1 16 (ascii "GETT")
    (ascii "/x") (ascii "HTTP/1.1") (by unfold IsFirstIndex; decide) (by decide)).2 (by decide)

/-- Claim C8: on an input whose first CRLF is at offset `i`, `parseRequestLine`
fails with "invalid request line" if and only if splitting the bytes before that
CRLF on the space character gives a number of fields other than three, that is,
if and only if the line does not contain exactly two spaces; in that case the
result is this error whatever the method and version fields are. -/
theorem parseRequestLine_invalid_request_line_iff (rawReq : Bytes) (i : Nat)
    (hi : IsFirstIndex rawReq crlf i) :
    ((parseRequestLine rawReq).2.2 = some Error.invalidRequestLine ↔
      (stringsSplit (rawReq.take i) 32).length ≠ 3) ∧
    ((stringsSplit (rawReq.take i) 32).length ≠ 3 ↔ (rawReq.take i).count 32 ≠ 2) ∧
    ((rawReq.take i).count 32 ≠ 2 →
      parseRequestLine rawReq = (none, 0, some Error.invalidRequestLine)) := by
  have hcount : (stringsSplit (rawReq.take i) 32).length ≠ 3 ↔ (rawReq.take i).count 32 ≠ 2 := by
    rw [stringsSplit_length]
    omega
  refine ⟨?_, hcount, fun h => parseRequestLine_of_length_ne hi (hcount.2 h)⟩
  by_cases hl : (stringsSplit (rawReq.take i) 32).length = 3
  · obtain ⟨f1, f2, f3, hs⟩ := list_length_three hl
    rw [parseRequestLine_of_fields hi hs]
    by_cases h1 : f1 ∈ validMethods
    · by_cases h2 : f3.count 47 = 1
      · by_cases h3 : stringsTrimSpace (afterByte 47 f3) = ascii "1.1"
        · simp [h1, h2, h3, hs]
        · simp [h1, h2, h3, hs]
      · simp [h1, h2, hs]
    · simp [h1, hs]
  · rw [parseRequestLine_of_length_ne hi hl]
    simp [hl]

/-- Witness of `parseRequestLine_invalid_request_line_iff`: `GET /x` has two
fields and fails with "invalid request line". -/
theorem parseRequestLine_invalid_request_line_iff_witness :
    (parseRequestLine (ascii "GET /x\r\n")).2.2 = some Error.invalidRequestLine :=
  (parseRequestLine_invalid_request_line_iff (ascii "GET /x\r\n") 6
    (by unfold IsFirstIndex; decide)).1.2 (by decide)

/-- Claim C9: `parseHttpVerion v` fails with the invalid-version-format error
exactly when `v` does not contain exactly one `/`; when `v` contains exactly one
`/`, it fails with "unsupported http version" exactly when the part after the `/`,
white space trimmed, differs from `1.1`, and succeeds otherwise. `HTTP/1.0`,
`HTTP/2.0` and `HTTP/1.10` are rejected. -/
theorem parseHttpVerion_spec (v : Bytes) :
    ((parseHttpVerion v).2 = some Error.invalidHttpVersionFormats ↔ v.count 47 ≠ 1) ∧
    (v.count 47 = 1 →
      ((parseHttpVerion v).2 = some Error.unsupportedHttpVersion ↔
        stringsTrimSpace (afterByte 47 v) ≠ ascii "1.1") ∧
      (stringsTrimSpace (afterByte 47 v) = ascii "1.1" → (parseHttpVerion v).2 = none)) ∧
    (parseHttpVerion (ascii "HTTP/1.0")).2 = some Error.unsupportedHttpVersion ∧
    (parseHttpVerion (ascii "HTTP/2.0")).2 = some Error.unsupportedHttpVersion ∧
    (parseHttpVerion (ascii "HTTP/1.10")).2 = some Error.unsupportedHttpVersion := by
  refine ⟨?_, ?_, by decide, by decide, by decide⟩
  · by_cases h : v.count 47 = 1
    · rw [parseHttpVerion_of_count_one h]
      by_cases h3 : stringsTrimSpace (afterByte 47 v) = ascii "1.1" <;> simp [h, h3]
    · rw [parseHttpVerion_of_count_ne_one h]
      simp [h]
  · intro h
    rw [parseHttpVerion_of_count_one h]
    by_cases h3 : stringsTrimSpace (afterByte 47 v) = ascii "1.1" <;> simp [h3]

/-- Witness of `parseHttpVerion_spec`: `HTTP/1.1` has one `/` and is accepted. -/
theorem parseHttpVerion_spec_witness : (parseHttpVerion (ascii "HTTP/1.1")).2 = none :=
  ((parseHttpVerion_spec (ascii "HTTP/1.1")).2.1 (by decide)).2 (by decide)

/-- Claim C10: when `parseRequestLine` succeeds, the number of bytes consumed is
`i + 2` for the offset `i` of the first CRLF of the input, and `parse`, called on
that input by a request in state `stateInitialized`, returns the same count with
no error, sets the state to `stateDone` and stores the parsed request line. -/
theorem parseRequestLine_consumed (rawReq : Bytes) (rl : RequestLine)
    (h : (parseRequestLine rawReq).1 = some rl) :
    ∃ i, IsFirstIndex rawReq crlf i ∧ (parseRequestLine rawReq).2.1 = i + 2 ∧
      ∀ r : Request, r.state = RequestState.stateInitialized →
        parse r rawReq = some ({ r with RequestLine := rl, state := RequestState.stateDone },
          i + 2, none) := by
  obtain ⟨i, target, versionStr, hi, -, -, -, -, -, hp⟩ := parseRequestLine_success_inv h
  refine ⟨i, hi, by rw [hp], fun r hr => ?_⟩
  simp [parse, hr, hp]

/-- Witness of `parseRequestLine_consumed`: on `GET / HTTP/1.1\r\nab` the first CRLF
is at offset 14 and 16 bytes are consumed. -/
theorem parseRequestLine_consumed_witness :
    ∃ i, IsFirstIndex (ascii "GET / HTTP/1.1\r\nab") crlf i ∧
      (parseRequestLine (ascii "GET / HTTP/1.1\r\nab")).2.1 = i + 2 ∧
      ∀ r : Request, r.state = RequestState.stateInitialized →
        parse r (ascii "GET / HTTP/1.1\r\nab") =
          some ({ r with RequestLine := { Method := GET, HttpVersion := ascii "1.1",
                                          RequestTarget := ascii "/" },
                         state := RequestState.stateDone }, i + 2, none) :=
  parseRequestLine_consumed (ascii "GET / HTTP/1.1\r\nab")
    { Method := GET, HttpVersion := ascii "1.1", RequestTarget := ascii "/" } (by decide)

/-! ## Lemmas on the driver loop -/

/-- One iteration of the loop, for a read within the buffer size: the error of
the read plays no part, and the two tests after the state test are never taken. -/
theorem RequestFromReaderLoop_succ (fuel : Nat) (reader : Reader) (k : Nat) (r : Request)
    (fullReqData : Bytes) (hsize : (reader k).data.length ≤ bufferSize) :
    RequestFromReaderLoop (fuel + 1) reader k r fullReqData =
      match parse r (fullReqData ++ (reader k).data) with
      | none => some Outcome.panicked
      | some (r1, bytesConsumed, err) =>
        if err ≠ none then some (Outcome.returned none err)
        else if bytesConsumed > (fullReqData ++ (reader k).data).length then
          some Outcome.panicked
        else if r1.state = RequestState.stateDone then some (Outcome.returned (some r1) none)
        else RequestFromReaderLoop fuel reader (k + 1) r1
          ((fullReqData ++ (reader k).data).drop bytesConsumed) := by
  have hfull : (if (reader k).data.length > 0 then fullReqData ++ (reader k).data
      else fullReqData) = fullReqData ++ (reader k).data := by
    by_cases h : (reader k).data.length > 0
    · simp [h]
    · have : (reader k).data = [] := List.length_eq_zero.1 (by omega)
      simp [this]
  rw [RequestFromReaderLoop]
  simp only [hfull, Nat.not_lt.2 hsize, if_false, gt_iff_lt]
  cases hp : parse r (fullReqData ++ (reader k).data) with
  | none => rfl
  | some res =>
    obtain ⟨r1, bytesConsumed, err⟩ := res
    cases err with
    | some e => simp
    | none =>
      have hdrop : (if 0 < bytesConsumed then (fullReqData ++ (reader k).data).drop bytesConsumed
          else fullReqData ++ (reader k).data) =
          (fullReqData ++ (reader k).data).drop bytesConsumed := by
        by_cases h : 0 < bytesConsumed
        · simp [h]
        · have : bytesConsumed = 0 := by omega
          simp [this]
      simp [hdrop]

theorem parse_of_no_crlf {r : Request} {data : Bytes}
    (hr : r.state = RequestState.stateInitialized) (h : ¬ crlf <:+: data) :
    parse r data = some (r, 0, none) := by
  simp [parse, hr, parseRequestLine_of_no_crlf h]

theorem parse_of_success {r : Request} {data : Bytes} {rl : RequestLine}
    (hr : r.state = RequestState.stateInitialized) (h : (parseRequestLine data).1 = some rl) :
    ∃ n, n ≤ data.length ∧ parse r data =
      some ({ r with RequestLine := rl, state := RequestState.stateDone }, n, none) := by
  obtain ⟨i, target, versionStr, hi, -, -, -, -, -, hp⟩ := parseRequestLine_success_inv h
  have hl := hi.add_length_le
  refine ⟨i + 2, by simpa [crlf] using hl, ?_⟩
  simp [parse, hr, hp]

theorem delivered_mono (reader : Reader) {k K : Nat} (h : k ≤ K) :
    delivered reader k <+: delivered reader K := by
  induction K, h using Nat.le_induction with
  | base => exact List.prefix_refl _
  | succ n _ ih => exact ih.trans (List.prefix_append _ _)

/-- The loop returns the parsed request as soon as the bytes read so far contain
a CRLF, when some `K` reads deliver an input that `parseRequestLine` accepts. -/
theorem RequestFromReaderLoop_success {reader : Reader} {K : Nat} {rl : RequestLine}
    {r : Request} (hr : r.state = RequestState.stateInitialized)
    (hsize : ∀ j, j < K → (reader j).data.length ≤ bufferSize)
    (hv : (parseRequestLine (delivered reader K)).1 = some rl) :
    ∀ d k, k + d = K → 0 < d → ∀ fuel, d ≤ fuel →
      RequestFromReaderLoop fuel reader k r (delivered reader k) =
        some (Outcome.returned
          (some { r with RequestLine := rl, state := RequestState.stateDone }) none) := by
  have hKcr : crlf <:+: delivered reader K := by
    by_contra hno
    rw [parseRequestLine_of_no_crlf hno] at hv
    simp at hv
  intro d
  induction d with
  | zero => intro k _ h; exact absurd h (Nat.lt_irrefl 0)
  | succ d ih =>
    intro k hk _ fuel hfuel
    obtain ⟨fuel, rfl⟩ : ∃ f, fuel = f + 1 := ⟨fuel - 1, by omega⟩
    rw [RequestFromReaderLoop_succ _ _ _ _ _ (hsize k (by omega))]
    have hfull : delivered reader k ++ (reader k).data = delivered reader (k + 1) := rfl
    rw [hfull]
    by_cases hcr : crlf <:+: delivered reader (k + 1)
    · obtain ⟨x, hx⟩ := delivered_mono reader (show k + 1 ≤ K by omega)
      have hv2 : (parseRequestLine (delivered reader (k + 1))).1 = some rl := by
        rw [← parseRequestLine_append hcr x, hx]
        exact hv
      obtain ⟨n, hn, hp⟩ := parse_of_success hr hv2
      simp [hp, Nat.not_lt.2 hn]
    · have hd : 0 < d := by
        rcases Nat.eq_zero_or_pos d with h0 | h0
        · subst h0
          exact absurd (by simpa [← hk] using hKcr) hcr
        · exact h0
      rw [parse_of_no_crlf hr hcr]
      simp only [ne_eq, not_true_eq_false, if_false, gt_iff_lt, Nat.not_lt_zero, hr,
        List.drop_zero]
      simp only [reduceCtorEq, if_false]
      exact ih (k + 1) (by omega) hd fuel (by omega)

/-- The loop never returns when no finite number of reads delivers a CRLF,
whatever errors the reads return. -/
theorem RequestFromReaderLoop_no_crlf {reader : Reader} {r : Request}
    (hr : r.state = RequestState.stateInitialized)
    (hsize : ∀ j, (reader j).data.length ≤ bufferSize)
    (hno : ∀ K, ¬ crlf <:+: delivered reader K) :
    ∀ fuel k, RequestFromReaderLoop fuel reader k r (delivered reader k) = none := by
  intro fuel
  induction fuel with
  | zero => intro k; rfl
  | succ fuel ih =>
    intro k
    rw [RequestFromReaderLoop_succ _ _ _ _ _ (hsize k)]
    have hfull : delivered reader k ++ (reader k).data = delivered reader (k + 1) := rfl
    rw [hfull, parse_of_no_crlf hr (hno (k + 1))]
    simp only [ne_eq, not_true_eq_false, if_false, gt_iff_lt, Nat.not_lt_zero, hr,
      List.drop_zero]
    simp only [reduceCtorEq, if_false]
    exact ih (k + 1)

theorem readerOf_data_of_ge (reads : List ReadResult) {k : Nat} (h : reads.length ≤ k) :
    (readerOf reads k).data = [] := by
  simp [readerOf, List.getElem?_eq_none h]

theorem delivered_readerOf_of_ge (reads : List ReadResult) {K : Nat} (h : reads.length ≤ K) :
    delivered (readerOf reads) K = delivered (readerOf reads) reads.length := by
  induction K, h using Nat.le_induction with
  | base => rfl
  | succ n hn ih => simp [delivered, readerOf_data_of_ge reads hn, ih]

/-- A reader given by a list of reads never delivers a CRLF when all its reads
together contain none. -/
theorem readerOf_no_crlf (reads : List ReadResult)
    (h : ¬ crlf <:+: delivered (readerOf reads) reads.length) (K : Nat) :
    ¬ crlf <:+: delivered (readerOf reads) K := by
  intro hK
  apply h
  rcases Nat.le_total K reads.length with hle | hle
  · exact hK.trans (delivered_mono _ hle).isInfix
  · rwa [delivered_readerOf_of_ge reads hle] at hK

theorem readerOf_size (reads : List ReadResult)
    (h : ∀ x ∈ reads, x.data.length ≤ bufferSize) (j : Nat) :
    (readerOf reads j).data.length ≤ bufferSize := by
  rcases Nat.lt_or_ge j reads.length with hj | hj
  · have : readerOf reads j = reads[j] := by
      simp [readerOf, List.getElem?_eq_getElem hj]
    rw [this]
    exact h _ (List.getElem_mem _)
  · simp [readerOf_data_of_ge reads hj]

/-- Claim C1: when `K` reads, each of at most `bufferSize` bytes (zero bytes
allowed), deliver a byte string `s` that `parseRequestLine` accepts in a single
call (so `s` contains a CRLF and the bytes before the first CRLF form a valid
request line), `RequestFromReader` returns within `K` iterations, without error,
a request whose request line is the one `parseRequestLine s` returns, however the
bytes are cut into reads. -/
theorem RequestFromReader_chunk_invariant (reader : Reader) (K : Nat) (s : Bytes)
    (rl : RequestLine) (hdel : delivered reader K = s)
    (hsize : ∀ j, j < K → (reader j).data.length ≤ bufferSize)
    (hv : (parseRequestLine s).1 = some rl) :
    ∃ r : Request, r.RequestLine = rl ∧ r.state = RequestState.stateDone ∧
      ∀ fuel, K ≤ fuel → RequestFromReader fuel reader = some (Outcome.returned (some r) none) := by
  subst hdel
  have hK : 0 < K := by
    rcases Nat.eq_zero_or_pos K with h0 | h0
    · subst h0
      simp [delivered, parseRequestLine, bytesIndex, crlf] at hv
    · exact h0
  refine ⟨_, ?_, ?_, fun fuel hfuel =>
    RequestFromReaderLoop_success rfl hsize hv K 0 (by omega) hK fuel hfuel⟩
  · rfl
  · rfl

/-- Witness of `RequestFromReader_chunk_invariant`: `GET / HTTP/1.1\r\n` delivered
in reads of 3, 0, 8 and 5 bytes. -/
theorem RequestFromReader_chunk_invariant_witness :
    ∃ r : Request,
      r.RequestLine = { Method := GET, HttpVersion := ascii "1.1", RequestTarget := ascii "/" } ∧
      r.state = RequestState.stateDone ∧
      ∀ fuel, 4 ≤ fuel →
        RequestFromReader fuel
          (readerOf [⟨ascii "GET", none⟩, ⟨[], none⟩, ⟨ascii " / HTTP/", none⟩,
            ⟨ascii "1.1\r\n", some Error.EOF⟩]) = some (Outcome.returned (some r) none) :=
  RequestFromReader_chunk_invariant
    (readerOf [⟨ascii "GET", none⟩, ⟨[], none⟩, ⟨ascii " / HTTP/", none⟩,
      ⟨ascii "1.1\r\n", some Error.EOF⟩]) 4 (ascii "GET / HTTP/1.1\r\n")
    { Method := GET, HttpVersion := ascii "1.1", RequestTarget := ascii "/" }
    (by decide) (by decide) (by decide)

/-- Claim C4, the code at the failing input: the source delivers
`GET /index.html HTTP/1.1` without CRLF and then signals end-of-input at every
read, and `RequestFromReader` never returns, whatever the number of iterations. -/
theorem RequestFromReader_incomplete_never_returns :
    delivered incompleteReader 3 = ascii "GET /index.html HTTP/1.1" ∧
    (∀ k, 3 ≤ k → incompleteReader k = { data := [], err := some Error.EOF }) ∧
    ∀ fuel, RequestFromReader fuel incompleteReader = none := by
  refine ⟨by decide, fun k hk => ?_, fun fuel => ?_⟩
  · simp [incompleteReader, readerOf, List.getElem?_eq_none (show [_, _, _].length ≤ k from hk)]
  · exact RequestFromReaderLoop_no_crlf rfl
      (readerOf_size _ (by decide)) (readerOf_no_crlf _ (by decide)) fuel 0

/-- Claim C5, the code at the failing input: the first read fails with a transport
error before any byte has arrived, and `RequestFromReader` goes on reading and
returns a parsed request with a nil error; with a source that fails at every
read it never returns. -/
theorem RequestFromReader_swallows_read_error :
    (failingReader 0).err = some (Error.transport 1) ∧
    (∀ fuel, 3 ≤ fuel → RequestFromReader fuel failingReader =
      some (Outcome.returned
        (some { RequestLine := { Method := GET, HttpVersion := ascii "1.1",
                                 RequestTarget := ascii "/" },
                Headers := none, Body := [], state := RequestState.stateDone }) none)) ∧
    ∀ fuel, RequestFromReader fuel (fun _ => { data := [], err := some (Error.transport 1) }) =
      none := by
  refine ⟨by decide, fun fuel hfuel => ?_, fun fuel => ?_⟩
  · have hv : (parseRequestLine (delivered failingReader 3)).1 =
        some { Method := GET, HttpVersion := ascii "1.1", RequestTarget := ascii "/" } := by
      decide
    exact RequestFromReaderLoop_success rfl (by decide) hv 3 0 rfl (by decide) fuel hfuel
  · refine RequestFromReaderLoop_no_crlf rfl (fun j => by simp) (fun K => ?_) fuel 0
    have : delivered (fun _ => ({ data := [], err := some (Error.transport 1) } : ReadResult)) K
        = [] := by
      induction K with
      | zero => rfl
      | succ n ih => simp [delivered, ih]
    rw [this]
    decide

/-! ## Shapes of the results, frame and safety -/

theorem isFirstIndex_of_infix {s sep : Bytes} (h : sep <:+: s) : ∃ i, IsFirstIndex s sep i := by
  obtain ⟨i, hi⟩ := bytesIndex_isSome_of_infix h
  exact ⟨i, (bytesIndex_eq_some_iff _ _ _).1 hi⟩

theorem infix_of_isFirstIndex {s : Bytes} {i : Nat} (h : IsFirstIndex s crlf i) :
    crlf <:+: s := by
  by_contra hno
  have hb := (bytesIndex_eq_none_iff _ _).2 hno
  rw [(bytesIndex_eq_some_iff _ _ _).2 h] at hb
  cases hb

/-- On an input whose line is well formed `parseRequestLine` succeeds and
consumes the line and its CRLF. -/
theorem parseRequestLine_of_wellFormed {rawReq : Bytes} {i : Nat}
    (hi : IsFirstIndex rawReq crlf i) (hw : WellFormedLine (rawReq.take i)) :
    ∃ rl, parseRequestLine rawReq = (some rl, i + 2, none) := by
  obtain ⟨hl, hm, hc, ht⟩ := hw
  obtain ⟨f1, f2, f3, hs⟩ := list_length_three hl
  rw [hs] at hm hc ht
  simp only [List.getD_cons_zero, List.getD_cons_succ] at hm hc ht
  rw [parseRequestLine_of_fields hi hs]
  simp [hm, hc, ht]

/-- On an input whose line is not well formed `parseRequestLine` returns an
error, no request line and the count `0`. -/
theorem parseRequestLine_of_not_wellFormed {rawReq : Bytes} {i : Nat}
    (hi : IsFirstIndex rawReq crlf i) (hw : ¬ WellFormedLine (rawReq.take i)) :
    ∃ e, parseRequestLine rawReq = (none, 0, some e) := by
  by_cases hl : (stringsSplit (rawReq.take i) 32).length = 3
  · obtain ⟨f1, f2, f3, hs⟩ := list_length_three hl
    rw [parseRequestLine_of_fields hi hs]
    by_cases h1 : f1 ∈ validMethods
    · by_cases h2 : f3.count 47 = 1
      · by_cases h3 : stringsTrimSpace (afterByte 47 f3) = ascii "1.1"
        · exact absurd (show WellFormedLine (rawReq.take i) by
            unfold WellFormedLine
            rw [hs]
            exact ⟨rfl, h1, h2, h3⟩) hw
        · simp [h1, h2, h3]
      · simp [h1, h2]
    · simp [h1]
  · exact ⟨_, parseRequestLine_of_length_ne hi hl⟩

/-- The three shapes of the result of `parseRequestLine`. -/
theorem parseRequestLine_shape (rawReq : Bytes) :
    (¬ crlf <:+: rawReq ∧ parseRequestLine rawReq = (none, 0, none)) ∨
    (crlf <:+: rawReq ∧ ∃ e, parseRequestLine rawReq = (none, 0, some e)) ∨
    (crlf <:+: rawReq ∧ ∃ rl n, parseRequestLine rawReq = (some rl, n, none) ∧ 2 ≤ n ∧
      n ≤ rawReq.length) := by
  by_cases hcr : crlf <:+: rawReq
  · obtain ⟨i, hi⟩ := isFirstIndex_of_infix hcr
    by_cases hw : WellFormedLine (rawReq.take i)
    · obtain ⟨rl, h⟩ := parseRequestLine_of_wellFormed hi hw
      have hl := hi.add_length_le
      exact Or.inr (Or.inr ⟨hcr, rl, i + 2, h, by omega, by simpa [crlf] using hl⟩)
    · exact Or.inr (Or.inl ⟨hcr, parseRequestLine_of_not_wellFormed hi hw⟩)
  · exact Or.inl ⟨hcr, parseRequestLine_of_no_crlf hcr⟩

theorem parse_of_error {r : Request} {data : Bytes} {e : Error}
    (hr : r.state = RequestState.stateInitialized)
    (h : parseRequestLine data = (none, 0, some e)) :
    parse r data = some (r, 0, some e) := by
  simp [parse, hr, h]

theorem parse_of_done {r : Request} (data : Bytes) (hr : r.state = RequestState.stateDone) :
    parse r data = some (r, 0, none) := by
  simp [parse, hr]

/-- What `parse` returns, by cases on the state and on `parseRequestLine`; it
never panics and never reports more bytes than it was given. -/
theorem parse_cases (r : Request) (data : Bytes) :
    parse r data = some (r, 0, none) ∨
    (∃ e, parse r data = some (r, 0, some e) ∧ r.state = RequestState.stateInitialized ∧
      parseRequestLine data = (none, 0, some e)) ∨
    (∃ rl n, parse r data =
        some ({ r with RequestLine := rl, state := RequestState.stateDone }, n, none) ∧
      r.state = RequestState.stateInitialized ∧
      parseRequestLine data = (some rl, n, none) ∧ 2 ≤ n ∧ n ≤ data.length) := by
  cases hr : r.state with
  | stateDone => exact Or.inl (parse_of_done data hr)
  | stateInitialized =>
    rcases parseRequestLine_shape data with ⟨hno, -⟩ | ⟨-, e, he⟩ | ⟨-, rl, n, hp, h2, hn⟩
    · exact Or.inl (parse_of_no_crlf hr hno)
    · exact Or.inr (Or.inl ⟨e, parse_of_error hr he, rfl, he⟩)
    · refine Or.inr (Or.inr ⟨rl, n, ?_, rfl, hp, h2, hn⟩)
      have hn0 : n ≠ 0 := by omega
      simp [parse, hr, hp, hn0]

theorem stringsSplit_interior_nil {s : Bytes} {sep : Byte} (h : [sep, sep] <:+: s) :
    [] ∈ (stringsSplit s sep).tail.dropLast := by
  induction s with
  | nil => simp at h
  | cons b t ih =>
    rw [List.infix_cons_iff] at h
    rcases h with hp | hi
    · obtain ⟨u, hu⟩ := hp
      simp only [List.cons_append, List.nil_append, List.cons.injEq] at hu
      obtain ⟨hb, ht⟩ := hu
      subst hb
      subst ht
      cases hs : stringsSplit u sep with
      | nil => exact absurd hs (stringsSplit_ne_nil u sep)
      | cons p ps => simp [stringsSplit, hs]
    · have ih2 := ih hi
      cases hs : stringsSplit t sep with
      | nil => exact absurd hs (stringsSplit_ne_nil t sep)
      | cons p ps =>
        rw [hs] at ih2
        simp only [List.tail_cons] at ih2
        by_cases hb : b = sep
        · simp only [stringsSplit, hb, if_true, hs, List.tail_cons]
          cases ps with
          | nil => simp at ih2
          | cons q qs =>
            simp only [List.dropLast_cons₂, List.mem_cons]
            exact Or.inr ih2
        · simpa [stringsSplit, hb, hs] using ih2

theorem RequestFromReaderLoop_ne_panicked {reader : Reader}
    (hsize : ∀ j, (reader j).data.length ≤ bufferSize) :
    ∀ fuel k r fullReqData,
      RequestFromReaderLoop fuel reader k r fullReqData ≠ some Outcome.panicked := by
  intro fuel
  induction fuel with
  | zero => intro k r f; simp [RequestFromReaderLoop]
  | succ fuel ih =>
    intro k r f
    rw [RequestFromReaderLoop_succ _ _ _ _ _ (hsize k)]
    rcases parse_cases r (f ++ (reader k).data) with h | ⟨e, h, -⟩ | ⟨rl, n, h, -, -, -, hn⟩
    · rw [h]
      by_cases hd : r.state = RequestState.stateDone
      · simp [hd]
      · simpa [hd] using ih (k + 1) r (f ++ (reader k).data)
    · rw [h]; simp
    · rw [h]
      simp only [List.length_append] at hn
      simp [Nat.not_lt.2 hn]

/-- Claim C11: `parse` neither consumes bytes nor changes the request unless the
data contains a CRLF and the line before it is well formed. For every request
`r` and every `data` without CRLF or with a malformed line, `parse` returns the
count `0` and leaves `r` as it was; without CRLF it also reports no error; and
calling `parse` again and again on inputs without CRLF leaves `r` as it was. -/
theorem parse_frame (r : Request) (data : Bytes)
    (h : ¬ crlf <:+: data ∨ ∃ i, IsFirstIndex data crlf i ∧ ¬ WellFormedLine (data.take i)) :
    (∃ err, parse r data = some (r, 0, err)) ∧
    (¬ crlf <:+: data → parse r data = some (r, 0, none)) ∧
    (∀ ds : List Bytes, (∀ d, d ∈ ds → ¬ crlf <:+: d) → parseEach r ds = some r) := by
  have hno : ¬ crlf <:+: data → parse r data = some (r, 0, none) := by
    intro hcr
    cases hr : r.state with
    | stateDone => exact parse_of_done data hr
    | stateInitialized => exact parse_of_no_crlf hr hcr
  refine ⟨?_, hno, ?_⟩
  · rcases h with hcr | ⟨i, hi, hw⟩
    · exact ⟨none, hno hcr⟩
    · cases hr : r.state with
      | stateDone => exact ⟨none, parse_of_done data hr⟩
      | stateInitialized =>
        obtain ⟨e, he⟩ := parseRequestLine_of_not_wellFormed hi hw
        exact ⟨some e, parse_of_error hr he⟩
  · intro ds
    induction ds with
    | nil => intro _; rfl
    | cons d ds ih =>
      intro hds
      have hd : parse r d = some (r, 0, none) := by
        cases hr : r.state with
        | stateDone => exact parse_of_done d hr
        | stateInitialized => exact parse_of_no_crlf hr (hds d (List.mem_cons_self _ _))
      simp only [parseEach, hd]
      exact ih (fun x hx => hds x (List.mem_cons_of_mem _ hx))

/-- Witness of `parse_frame`: the fresh request and the data `GET /index.h`,
which has no CRLF. -/
theorem parse_frame_witness :
    (∃ err, parse emptyRequest (ascii "GET /index.h") = some (emptyRequest, 0, err)) ∧
    (¬ crlf <:+: ascii "GET /index.h" →
      parse emptyRequest (ascii "GET /index.h") = some (emptyRequest, 0, none)) ∧
    (∀ ds : List Bytes, (∀ d, d ∈ ds → ¬ crlf <:+: d) → parseEach emptyRequest ds =
      some emptyRequest) :=
  parse_frame emptyRequest (ascii "GET /index.h") (Or.inl (by decide))

/-- Claim C14, as the code has it: on an input whose line (the bytes before the
first CRLF) contains two adjacent spaces, `parseRequestLine` returns "invalid
request line" when the line has a number of spaces other than two, and whenever
it succeeds the line has exactly two spaces and the recorded target is the empty
string. -/
theorem parseRequestLine_adjacent_spaces (rawReq : Bytes) (i : Nat)
    (hi : IsFirstIndex rawReq crlf i) (h2 : [32, 32] <:+: rawReq.take i) :
    ((rawReq.take i).count 32 ≠ 2 →
      parseRequestLine rawReq = (none, 0, some Error.invalidRequestLine)) ∧
    (∀ rl, (parseRequestLine rawReq).1 = some rl →
      rl.RequestTarget = [] ∧ (rawReq.take i).count 32 = 2) := by
  constructor
  · intro hc
    apply parseRequestLine_of_length_ne hi
    rw [stringsSplit_length]
    omega
  · intro rl h
    obtain ⟨j, target, versionStr, hj, hs, -, -, -, hrl, -⟩ := parseRequestLine_success_inv h
    have hij : i = j := hi.unique hj
    subst hij
    have hnil := stringsSplit_interior_nil h2
    rw [hs] at hnil
    simp only [List.tail_cons, List.dropLast_cons₂, List.dropLast_single, List.mem_singleton]
      at hnil
    constructor
    · rw [hrl]
      exact hnil.symm
    · have hlen := stringsSplit_length (rawReq.take i) 32
      rw [hs] at hlen
      simp only [List.length_cons, List.length_nil] at hlen
      omega

/-- Witness of `parseRequestLine_adjacent_spaces`: `GET  /x HTTP/1.1`, with two
spaces after the method, is rejected with "invalid request line". -/
theorem parseRequestLine_adjacent_spaces_witness :
    parseRequestLine (ascii "GET  /x HTTP/1.1\r\n") =
      (none, 0, some Error.invalidRequestLine) :=
  (parseRequestLine_adjacent_spaces (ascii "GET  /x HTTP/1.1\r\n") 16
    (by unfold IsFirstIndex; decide) (by decide)).1 (by decide)

/-- Claim C14 as stated fails: the line `GET  HTTP/1.1` contains two adjacent
spaces and `parseRequestLine` accepts it, with an empty target. -/
theorem parseRequestLine_accepts_adjacent_spaces :
    IsFirstIndex (ascii "GET  HTTP/1.1\r\n") crlf 13 ∧
    [32, 32] <:+: (ascii "GET  HTTP/1.1\r\n").take 13 ∧
    parseRequestLine (ascii "GET  HTTP/1.1\r\n") =
      (some { Method := GET, HttpVersion := ascii "1.1", RequestTarget := [] }, 15, none) := by
  refine ⟨?_, ?_, ?_⟩
  · unfold IsFirstIndex; decide
  · decide
  · decide

/-- Claim C17: for every `d` that contains a CRLF and every `e`,
`parseRequestLine (d ++ e)` returns what `parseRequestLine d` returns, the same
request line and count or the same error; so does `parse`, for every request. -/
theorem parseRequestLine_prefix_stable (d e : Bytes) (h : crlf <:+: d) :
    parseRequestLine (d ++ e) = parseRequestLine d ∧
    ∀ r : Request, parse r (d ++ e) = parse r d := by
  have hp := parseRequestLine_append h e
  refine ⟨hp, fun r => ?_⟩
  simp only [parse, hp]

/-- Witness of `parseRequestLine_prefix_stable`: a request line followed by a
header line. -/
theorem parseRequestLine_prefix_stable_witness :
    parseRequestLine (ascii "GET / HTTP/1.1\r\n" ++ ascii "Host: a\r\n") =
      parseRequestLine (ascii "GET / HTTP/1.1\r\n") ∧
    ∀ r : Request, parse r (ascii "GET / HTTP/1.1\r\n" ++ ascii "Host: a\r\n") =
      parse r (ascii "GET / HTTP/1.1\r\n") :=
  parseRequestLine_prefix_stable (ascii "GET / HTTP/1.1\r\n") (ascii "Host: a\r\n") (by decide)

/-- Claim C18: for every `data`, the count returned by `parseRequestLine` and the
count returned by `parse` are at most the length of `data`, and so is the index
found by `bytes.Index`; hence, with a reader that keeps to the buffer size, the
slice expressions of `RequestFromReader` are within bounds: the loop does not
panic, from any state. -/
theorem consumed_le_length (data : Bytes) :
    (parseRequestLine data).2.1 ≤ data.length ∧
    (∀ (r r1 : Request) (n : Nat) (err : Option Error),
      parse r data = some (r1, n, err) → n ≤ data.length) ∧
    (∀ idx, bytesIndex data crlf = some idx → idx ≤ data.length) ∧
    (∀ (fuel : Nat) (reader : Reader) (k : Nat) (r : Request),
      (∀ j, (reader j).data.length ≤ bufferSize) →
      RequestFromReaderLoop fuel reader k r data ≠ some Outcome.panicked) := by
  refine ⟨?_, ?_, ?_, ?_⟩
  · rcases parseRequestLine_shape data with ⟨-, h⟩ | ⟨-, e, h⟩ | ⟨-, rl, n, h, -, hn⟩
    · rw [h]; exact Nat.zero_le _
    · rw [h]; exact Nat.zero_le _
    · rw [h]; exact hn
  · intro r r1 n err hp
    rcases parse_cases r data with h | ⟨e, h, -⟩ | ⟨rl, m, h, -, -, -, hm⟩
    · rw [h] at hp
      simp only [Option.some.injEq, Prod.mk.injEq] at hp
      omega
    · rw [h] at hp
      simp only [Option.some.injEq, Prod.mk.injEq] at hp
      omega
    · rw [h] at hp
      simp only [Option.some.injEq, Prod.mk.injEq] at hp
      omega
  · intro idx h
    have := ((bytesIndex_eq_some_iff _ _ _).1 h).add_length_le
    omega
  · intro fuel reader k r hsize
    exact RequestFromReaderLoop_ne_panicked hsize fuel k r data

/-- Witness of `consumed_le_length`: the CRLF of `GET / HTTP/1.1\r\nab` is found
at index 14, within its 18 bytes. -/
theorem consumed_le_length_witness : 14 ≤ (ascii "GET / HTTP/1.1\r\nab").length :=
  (consumed_le_length (ascii "GET / HTTP/1.1\r\nab")).2.2.1 14 (by decide)

/-- Claim C19: `parseRequestLine` returns one of three shapes: `(nil, 0, nil)` when
the input has no CRLF, `(nil, 0, err)` with a non-nil error when it has one and
the line is malformed, `(rl, n, nil)` with a non-nil request line and `n ≥ 2`
when the line is well formed. So the count is `0` exactly when no request line
is returned, and `parse` never dereferences a nil request line (it does not
panic). -/
theorem parseRequestLine_three_shapes (rawReq : Bytes) :
    ((¬ crlf <:+: rawReq ∧ parseRequestLine rawReq = (none, 0, none)) ∨
     (crlf <:+: rawReq ∧ ∃ e, parseRequestLine rawReq = (none, 0, some e)) ∨
     (crlf <:+: rawReq ∧ ∃ rl n, parseRequestLine rawReq = (some rl, n, none) ∧ 2 ≤ n)) ∧
    (∀ i, IsFirstIndex rawReq crlf i →
      ((∃ e, parseRequestLine rawReq = (none, 0, some e)) ↔ ¬ WellFormedLine (rawReq.take i))) ∧
    ((parseRequestLine rawReq).2.1 = 0 ↔ (parseRequestLine rawReq).1 = none) ∧
    ∀ r : Request, parse r rawReq ≠ none := by
  refine ⟨?_, ?_, ?_, ?_⟩
  · rcases parseRequestLine_shape rawReq with h | h | ⟨hcr, rl, n, h, h2, -⟩
    · exact Or.inl h
    · exact Or.inr (Or.inl h)
    · exact Or.inr (Or.inr ⟨hcr, rl, n, h, h2⟩)
  · intro i hi
    constructor
    · rintro ⟨e, he⟩ hw
      obtain ⟨rl, hrl⟩ := parseRequestLine_of_wellFormed hi hw
      rw [he] at hrl
      simp at hrl
    · exact parseRequestLine_of_not_wellFormed hi
  · rcases parseRequestLine_shape rawReq with ⟨-, h⟩ | ⟨-, e, h⟩ | ⟨-, rl, n, h, h2, -⟩
    · rw [h]; simp
    · rw [h]; simp
    · rw [h]
      simp only [reduceCtorEq, iff_false]
      omega
  · intro r
    rcases parse_cases r rawReq with h | ⟨e, h, -⟩ | ⟨rl, n, h, -⟩
    · rw [h]; simp
    · rw [h]; simp
    · rw [h]; simp

/-- Witness of `parseRequestLine_three_shapes`: `GETT /x HTTP/1.1` is not well
formed, and the result has the error shape. -/
theorem parseRequestLine_three_shapes_witness :
    ∃ e, parseRequestLine (ascii "GETT /x HTTP/1.1\r\n") = (none, 0, some e) :=
  ((parseRequestLine_three_shapes (ascii "GETT /x HTTP/1.1\r\n")).2.1 16
    (by unfold IsFirstIndex; decide)).2 (by decide)

/-- The loop returns the error of `parseRequestLine` as soon as the bytes read so
far contain a CRLF, when some `K` reads deliver an input that `parseRequestLine`
rejects. -/
theorem RequestFromReaderLoop_failure {reader : Reader} {K : Nat} {e : Error}
    {r : Request} (hr : r.state = RequestState.stateInitialized)
    (hsize : ∀ j, j < K → (reader j).data.length ≤ bufferSize)
    (hv : parseRequestLine (delivered reader K) = (none, 0, some e)) :
    ∀ d k, k + d = K → 0 < d → ∀ fuel, d ≤ fuel →
      RequestFromReaderLoop fuel reader k r (delivered reader k) =
        some (Outcome.returned none (some e)) := by
  have hKcr : crlf <:+: delivered reader K := by
    by_contra hno
    rw [parseRequestLine_of_no_crlf hno] at hv
    simp at hv
  intro d
  induction d with
  | zero => intro k _ h; exact absurd h (Nat.lt_irrefl 0)
  | succ d ih =>
    intro k hk _ fuel hfuel
    obtain ⟨fuel, rfl⟩ : ∃ f, fuel = f + 1 := ⟨fuel - 1, by omega⟩
    rw [RequestFromReaderLoop_succ _ _ _ _ _ (hsize k (by omega))]
    have hfull : delivered reader k ++ (reader k).data = delivered reader (k + 1) := rfl
    rw [hfull]
    by_cases hcr : crlf <:+: delivered reader (k + 1)
    · obtain ⟨x, hx⟩ := delivered_mono reader (show k + 1 ≤ K by omega)
      have hv2 : parseRequestLine (delivered reader (k + 1)) = (none, 0, some e) := by
        rw [← parseRequestLine_append hcr x, hx]
        exact hv
      rw [parse_of_error hr hv2]
      simp
    · have hd : 0 < d := by
        rcases Nat.eq_zero_or_pos d with h0 | h0
        · subst h0
          exact absurd (by simpa [← hk] using hKcr) hcr
        · exact h0
      rw [parse_of_no_crlf hr hcr]
      simp only [ne_eq, not_true_eq_false, if_false, gt_iff_lt, Nat.not_lt_zero, hr,
        List.drop_zero]
      simp only [reduceCtorEq, if_false]
      exact ih (k + 1) (by omega) hd fuel (by omega)

/-- A return of the loop without error comes from a successful `parseRequestLine`
on the bytes read so far. -/
theorem RequestFromReaderLoop_returned {reader : Reader} {ro : Option Request} {r : Request}
    (hr : r.state = RequestState.stateInitialized) :
    ∀ fuel k, RequestFromReaderLoop fuel reader k r (delivered reader k) =
        some (Outcome.returned ro none) →
      ∃ j rl, k ≤ j ∧ j < k + fuel ∧
        (parseRequestLine (delivered reader (j + 1))).1 = some rl ∧
        ro = some { r with RequestLine := rl, state := RequestState.stateDone } := by
  intro fuel
  induction fuel with
  | zero => intro k h; simp [RequestFromReaderLoop] at h
  | succ fuel ih =>
    intro k h
    by_cases hsize : (reader k).data.length ≤ bufferSize
    · rw [RequestFromReaderLoop_succ _ _ _ _ _ hsize] at h
      have hfull : delivered reader k ++ (reader k).data = delivered reader (k + 1) := rfl
      rw [hfull] at h
      rcases parse_cases r (delivered reader (k + 1)) with hp | ⟨e, hp, -⟩ |
        ⟨rl, n, hp, -, hrl, -, hn⟩
      · rw [hp] at h
        simp only [ne_eq, not_true_eq_false, if_false, gt_iff_lt, Nat.not_lt_zero, hr,
          List.drop_zero] at h
        simp only [reduceCtorEq, if_false] at h
        obtain ⟨j, rl, h1, h2, h3, h4⟩ := ih (k + 1) h
        exact ⟨j, rl, by omega, by omega, h3, h4⟩
      · rw [hp] at h
        simp at h
      · rw [hp] at h
        simp only [ne_eq, not_true_eq_false, if_false, gt_iff_lt, Nat.not_lt.2 hn, if_true,
          Option.some.injEq, Outcome.returned.injEq, and_true] at h
        exact ⟨k, rl, le_refl _, by omega, by rw [hrl], h.symm⟩
    · rw [RequestFromReaderLoop] at h
      simp [Nat.lt_of_not_le hsize] at h

/-- Claim C12: when `K` reads, each of at most `bufferSize` bytes, deliver a byte
string `s` that contains a CRLF and whose line before the first CRLF is
malformed, `RequestFromReader` returns within `K` iterations the error that
`parseRequestLine` reports for `s`, and no request, however the bytes are cut
into reads and whatever follows the CRLF. -/
theorem RequestFromReader_malformed_line (reader : Reader) (K : Nat) (s : Bytes) (i : Nat)
    (hdel : delivered reader K = s)
    (hsize : ∀ j, j < K → (reader j).data.length ≤ bufferSize)
    (hi : IsFirstIndex s crlf i) (hw : ¬ WellFormedLine (s.take i)) :
    ∃ e, (parseRequestLine s).2.2 = some e ∧
      ∀ fuel, K ≤ fuel →
        RequestFromReader fuel reader = some (Outcome.returned none (some e)) := by
  subst hdel
  obtain ⟨e, he⟩ := parseRequestLine_of_not_wellFormed hi hw
  have hK : 0 < K := by
    rcases Nat.eq_zero_or_pos K with h0 | h0
    · subst h0
      simp [delivered, parseRequestLine, bytesIndex, crlf] at he
    · exact h0
  refine ⟨e, by rw [he], fun fuel hfuel => ?_⟩
  exact RequestFromReaderLoop_failure rfl hsize he K 0 (by omega) hK fuel hfuel

/-- Witness of `RequestFromReader_malformed_line`: `GETT /x HTTP/1.1\r\nHos`
delivered in reads of 5, 8, 0 and 8 bytes. -/
theorem RequestFromReader_malformed_line_witness :
    ∃ e, (parseRequestLine (ascii "GETT /x HTTP/1.1\r\nHos")).2.2 = some e ∧
      ∀ fuel, 4 ≤ fuel →
        RequestFromReader fuel
          (readerOf [⟨ascii "GETT ", none⟩, ⟨ascii "/x HTTP/", none⟩, ⟨[], none⟩,
            ⟨ascii "1.1\r\nHos", none⟩]) = some (Outcome.returned none (some e)) :=
  RequestFromReader_malformed_line
    (readerOf [⟨ascii "GETT ", none⟩, ⟨ascii "/x HTTP/", none⟩, ⟨[], none⟩,
      ⟨ascii "1.1\r\nHos", none⟩]) 4 (ascii "GETT /x HTTP/1.1\r\nHos") 16
    (by decide) (by decide) (by unfold IsFirstIndex; decide) (by decide)

/-- Claim C13: whenever `RequestFromReader` returns without an error, it returns
a request in state `stateDone`, with nil `Headers` and empty `Body`, whose
request line is the result of a successful `parseRequestLine` on the bytes
accumulated from the reads; it never returns, without error, a request in state
`stateInitialized`. -/
theorem RequestFromReader_returned_done (fuel : Nat) (reader : Reader) (ro : Option Request)
    (h : RequestFromReader fuel reader = some (Outcome.returned ro none)) :
    ∃ r : Request, ro = some r ∧ r.state = RequestState.stateDone ∧
      r.state ≠ RequestState.stateInitialized ∧ r.Headers = none ∧ r.Body = [] ∧
      ∃ k, k < fuel ∧ (parseRequestLine (delivered reader (k + 1))).1 = some r.RequestLine := by
  obtain ⟨j, rl, -, hj, hp, hro⟩ :=
    @RequestFromReaderLoop_returned reader ro emptyRequest rfl fuel 0 h
  refine ⟨_, hro, rfl, by simp, rfl, rfl, j, by omega, hp⟩

/-- Witness of `RequestFromReader_returned_done`: `GET / HTTP/1.1\r\n` in two
reads. -/
theorem RequestFromReader_returned_done_witness :
    ∃ r : Request,
      some { RequestLine := { Method := GET, HttpVersion := ascii "1.1",
                              RequestTarget := ascii "/" },
             Headers := none, Body := [], state := RequestState.stateDone } = some r ∧
      r.state = RequestState.stateDone ∧
      r.state ≠ RequestState.stateInitialized ∧ r.Headers = none ∧ r.Body = [] ∧
      ∃ k, k < 2 ∧ (parseRequestLine (delivered
        (readerOf [⟨ascii "GET / HT", none⟩, ⟨ascii "TP/1.1\r\n", none⟩]) (k + 1))).1 =
          some r.RequestLine :=
  RequestFromReader_returned_done 2
    (readerOf [⟨ascii "GET / HT", none⟩, ⟨ascii "TP/1.1\r\n", none⟩]) _ (by decide)

/-- Claim C15, the code at the failing input: with a source that returns zero
bytes and `io.EOF` at every read, `RequestFromReader` never returns, whatever the
number of iterations. -/
theorem RequestFromReader_empty_source_never_returns :
    (∀ k, readerOf [] k = { data := [], err := some Error.EOF }) ∧
    ∀ fuel, RequestFromReader fuel (readerOf []) = none := by
  refine ⟨fun k => by simp [readerOf], fun fuel => ?_⟩
  exact RequestFromReaderLoop_no_crlf rfl (readerOf_size _ (by decide))
    (readerOf_no_crlf _ (by decide)) fuel 0

/-- The traced loop returns what the loop returns. -/
theorem RequestFromReaderTraced_snd (reader : Reader) :
    ∀ fuel k r fullReqData,
      (RequestFromReaderTraced fuel reader k r fullReqData).2 =
        RequestFromReaderLoop fuel reader k r fullReqData := by
  intro fuel
  induction fuel with
  | zero => intro k r f; rfl
  | succ fuel ih =>
    intro k r f
    rw [RequestFromReaderTraced, RequestFromReaderLoop]
    by_cases hsize : (reader k).data.length > bufferSize
    · simp [hsize]
    · simp only [hsize, if_false]
      split
      · rfl
      · rename_i r1 bytesConsumed err _
        split_ifs <;> first | rfl | exact ih _ _ _

/-- One iteration of the traced loop, for a read within the buffer size. -/
theorem RequestFromReaderTraced_succ (fuel : Nat) (reader : Reader) (k : Nat) (r : Request)
    (fullReqData : Bytes) (hsize : (reader k).data.length ≤ bufferSize) :
    (RequestFromReaderTraced (fuel + 1) reader k r fullReqData).1 =
      match parse r (fullReqData ++ (reader k).data) with
      | none => [⟨fullReqData ++ (reader k).data, none, fullReqData ++ (reader k).data⟩]
      | some (r1, bytesConsumed, err) =>
        if err ≠ none ∨ bytesConsumed > (fullReqData ++ (reader k).data).length then
          [⟨fullReqData ++ (reader k).data, some (r1, bytesConsumed, err),
            fullReqData ++ (reader k).data⟩]
        else if r1.state = RequestState.stateDone then
          [⟨fullReqData ++ (reader k).data, some (r1, bytesConsumed, err),
            (fullReqData ++ (reader k).data).drop bytesConsumed⟩]
        else
          ⟨fullReqData ++ (reader k).data, some (r1, bytesConsumed, err),
            (fullReqData ++ (reader k).data).drop bytesConsumed⟩ ::
          (RequestFromReaderTraced fuel reader (k + 1) r1
            ((fullReqData ++ (reader k).data).drop bytesConsumed)).1 := by
  have hfull : (if (reader k).data.length > 0 then fullReqData ++ (reader k).data
      else fullReqData) = fullReqData ++ (reader k).data := by
    by_cases h : (reader k).data.length > 0
    · simp [h]
    · have : (reader k).data = [] := List.length_eq_zero.1 (by omega)
      simp [this]
  rw [RequestFromReaderTraced]
  simp only [hfull, Nat.not_lt.2 hsize, if_false, gt_iff_lt]
  cases hp : parse r (fullReqData ++ (reader k).data) with
  | none => rfl
  | some res =>
    obtain ⟨r1, bytesConsumed, err⟩ := res
    cases err with
    | some e => simp
    | none =>
      have hdrop : (if 0 < bytesConsumed then (fullReqData ++ (reader k).data).drop bytesConsumed
          else fullReqData ++ (reader k).data) =
          (fullReqData ++ (reader k).data).drop bytesConsumed := by
        by_cases h : 0 < bytesConsumed
        · simp [h]
        · have : bytesConsumed = 0 := by omega
          simp [this]
      simp only [ne_eq, not_true_eq_false, if_false, false_or, reduceCtorEq, hdrop]
      split_ifs <;> rfl

/-- The calls of `parse` made by the loop, started on the bytes of the first `k`
reads: the call of index `i` receives the bytes of the first `k + i + 1` reads. -/
theorem RequestFromReaderTraced_calls {reader : Reader} {r : Request}
    (hr : r.state = RequestState.stateInitialized) :
    ∀ fuel k i c, (RequestFromReaderTraced fuel reader k r (delivered reader k)).1[i]? = some c →
      c.data = delivered reader (k + i + 1) ∧ c.result = parse r c.data ∧
      (c.after = c.data ∨
        ∃ r1 n, c.result = some (r1, n, none) ∧ 0 < n ∧ c.after = c.data.drop n) := by
  intro fuel
  induction fuel with
  | zero => intro k i c h; simp [RequestFromReaderTraced] at h
  | succ fuel ih =>
    intro k i c h
    by_cases hsize : (reader k).data.length ≤ bufferSize
    · rw [RequestFromReaderTraced_succ _ _ _ _ _ hsize] at h
      have hfull : delivered reader k ++ (reader k).data = delivered reader (k + 1) := rfl
      rw [hfull] at h
      rcases parse_cases r (delivered reader (k + 1)) with hp | ⟨e, hp, -⟩ |
        ⟨rl, n, hp, -, hrl, h2, hn⟩
      · rw [hp] at h
        simp only [ne_eq, not_true_eq_false, gt_iff_lt, Nat.not_lt_zero, or_self, if_false,
          hr, reduceCtorEq, List.drop_zero] at h
        cases i with
        | zero =>
          simp only [List.getElem?_cons_zero, Option.some.injEq] at h
          subst h
          exact ⟨rfl, hp.symm, Or.inl rfl⟩
        | succ i =>
          simp only [List.getElem?_cons_succ] at h
          have := ih (k + 1) i c h
          rw [show k + (i + 1) + 1 = k + 1 + i + 1 by omega]
          exact this
      · rw [hp] at h
        simp only [ne_eq, reduceCtorEq, not_false_eq_true, true_or, if_true] at h
        cases i with
        | zero =>
          simp only [List.getElem?_cons_zero, Option.some.injEq] at h
          subst h
          exact ⟨rfl, hp.symm, Or.inl rfl⟩
        | succ i => simp at h
      · rw [hp] at h
        simp only [ne_eq, not_true_eq_false, gt_iff_lt, Nat.not_lt.2 hn, or_self, if_false,
          if_true] at h
        cases i with
        | zero =>
          simp only [List.getElem?_cons_zero, Option.some.injEq] at h
          subst h
          exact ⟨rfl, hp.symm, Or.inr ⟨_, n, rfl, by omega, rfl⟩⟩
        | succ i => simp at h
    · rw [RequestFromReaderTraced] at h
      simp [Nat.lt_of_not_le hsize] at h

/-- Claim C16: at every call of `parse` inside `RequestFromReader`, the accumulator
passed to it is the concatenation, in order, of the bytes returned by all the
reads made so far, whatever errors the reads returned; after the call the
accumulator is unchanged, unless `parse` reported a positive count `n` without
error, in which case its first `n` bytes are removed. -/
theorem RequestFromReader_accumulator (fuel : Nat) (reader : Reader) :
    (RequestFromReaderTraced fuel reader 0 emptyRequest []).2 = RequestFromReader fuel reader ∧
    ∀ (i : Nat) (c : ParseCall),
      (RequestFromReaderTraced fuel reader 0 emptyRequest []).1[i]? = some c →
      c.data = delivered reader (i + 1) ∧ c.result = parse emptyRequest c.data ∧
      (c.after = c.data ∨
        ∃ r1 n, c.result = some (r1, n, none) ∧ 0 < n ∧ c.after = c.data.drop n) := by
  refine ⟨RequestFromReaderTraced_snd reader fuel 0 emptyRequest [], fun i c h => ?_⟩
  have := @RequestFromReaderTraced_calls reader emptyRequest rfl fuel 0 i c h
  simpa using this

/-- Witness of `RequestFromReader_accumulator`: the second call of `parse` when
`GET / HTTP/1.1\r\n` arrives in two reads, the first with `io.EOF`. -/
theorem RequestFromReader_accumulator_witness :
    (⟨ascii "GET / HTTP/1.1\r\n",
      some ({ RequestLine := { Method := GET, HttpVersion := ascii "1.1",
                               RequestTarget := ascii "/" },
              Headers := none, Body := [], state := RequestState.stateDone }, 16, none),
      []⟩ : ParseCall).data =
      delivered (readerOf [⟨ascii "GET / HT", some Error.EOF⟩, ⟨ascii "TP/1.1\r\n", none⟩])
        (1 + 1) :=
  ((RequestFromReader_accumulator 2
    (readerOf [⟨ascii "GET / HT", some Error.EOF⟩, ⟨ascii "TP/1.1\r\n", none⟩])).2 1 _
    (by decide)).1

end HttpFromTcp
